import Mathlib

/-!
Verification of the AI-acquisition dashboard's ingestion and
thread-analytics engine.

The development shallowly embeds the engine's core functions:

* `get_fiscal_quarter`, `get_trailing_quarters` (fiscal calendar,
  `dashboard.py`),
* `get_ai_acq_messages` (paginated tagged-message ingestion,
  `slack_monitor.py`),
* `get_thread_stats` (per-thread statistics aggregation, `dashboard.py`),
* `get_top_performers` (reaction-based contributor scoring,
  `slack_monitor.py`),

and proves (or refutes, with concrete counterexamples) the specified
properties of each.  The upstream messaging API is modelled as data:
a channel is a list of raw messages paged by cursor, per-thread reply
fetches are a function from thread timestamp to an optional reply list
(`none` = API error), and user-name resolution is an arbitrary function
from user id to display name.
-/

namespace AcqDash

/-- Calendar date as consumed by `get_fiscal_quarter` in `dashboard.py`:
only `year` and `month` participate in the fiscal arithmetic; `day` is
carried along for fidelity to the examples. -/
structure Date where
  year : Int
  month : Nat
  day : Nat
deriving DecidableEq

/-- Embedding of `get_fiscal_quarter` (`dashboard.py`).  Maps a date to
`(fiscal_year, quarter_number, label)` with Q1 = Feb–Apr, Q2 = May–Jul,
Q3 = Aug–Oct, Q4 = Nov–Jan; the fiscal year is the calendar year in which
Q4 ends, and the label is built exactly as the Python f-strings build it. -/
def get_fiscal_quarter (d : Date) : Int × Nat × String :=
  if d.month ∈ [2, 3, 4] then
    (d.year + 1, 1, "FY" ++ toString ((d.year + 1) % 100) ++ " Q1")
  else if d.month ∈ [5, 6, 7] then
    (d.year + 1, 2, "FY" ++ toString ((d.year + 1) % 100) ++ " Q2")
  else if d.month ∈ [8, 9, 10] then
    (d.year + 1, 3, "FY" ++ toString ((d.year + 1) % 100) ++ " Q3")
  else
    let fy := if d.month ∈ [11, 12] then d.year + 1 else d.year
    (fy, 4, "FY" ++ toString (fy % 100) ++ " Q4")

/-- Loop body of `get_trailing_quarters` (`dashboard.py`): append the
current `(fy, q)` pair, then step back one quarter (`q -= 1`, and on
`q <= 0` wrap to quarter 4 of the previous fiscal year). -/
def trailingLoop (fy : Int) (q : Nat) : Nat → List (Int × Nat)
  | 0 => []
  | n + 1 =>
    (fy, q) :: (if q - 1 = 0 then trailingLoop (fy - 1) 4 n else trailingLoop fy (q - 1) n)

/-- Embedding of `get_trailing_quarters` (`dashboard.py`).  The Python
function reads the current instant from the clock; here the reference
instant is an explicit argument. -/
def get_trailing_quarters (now : Date) (n : Nat := 4) : List (Int × Nat) :=
  trailingLoop (get_fiscal_quarter now).1 (get_fiscal_quarter now).2.1 n

/-- Chronological index of a `(fiscal_year, quarter)` pair: consecutive
quarters differ by exactly 1. -/
def chronoIdx (p : Int × Nat) : Int := 4 * p.1 + (p.2 : Int)

example : get_fiscal_quarter ⟨2024, 8, 15⟩ = (2025, 3, "FY25 Q3") := by decide
example : get_fiscal_quarter ⟨2025, 1, 20⟩ = (2025, 4, "FY25 Q4") := by decide
example : get_fiscal_quarter ⟨2025, 2, 3⟩ = (2026, 1, "FY26 Q1") := by decide
example : get_trailing_quarters ⟨2025, 2, 3⟩ 4 = [(2026, 1), (2025, 4), (2025, 3), (2025, 2)] := by decide

/-! ### Message ingestion (`SlackMonitor.get_ai_acq_messages`, `slack_monitor.py`) -/

/-- Occurrence of `sub` as a contiguous run of `l`, decided structurally:
either `sub` is a prefix here, or it occurs in the tail. -/
def charsContain (sub : List Char) : List Char → Bool
  | [] => sub.isEmpty
  | c :: rest => sub.isPrefixOf (c :: rest) || charsContain sub rest

/-- Python's substring test `sub in s` on the underlying character
lists. -/
def pyContains (sub s : String) : Bool :=
  charsContain sub.data s.data

/-- Raw message as delivered by the channel-history API: the `user` and
`text` fields may be absent, `ts` is the numeric thread timestamp. -/
structure RawMsg where
  user : Option String
  text : Option String
  ts : Rat
deriving DecidableEq

/-- Normalized message record built by `get_ai_acq_messages`. -/
structure Message where
  timestamp : Rat
  user_id : String
  user_name : String
  message_text : String
  ts : Rat
deriving DecidableEq

/-- Slack user-group id for the tag, from `SlackMonitor.__init__`. -/
def ai_acq_group_id : String := "S06TG9U38ET"

/-- The raw mention token searched for in message text. -/
def search_pattern : String := "<!subteam^" ++ ai_acq_group_id

/-- Filter from the ingestion loop: the message has both an author and a
text, and the text contains the raw mention token. -/
def matchesTag (m : RawMsg) : Bool :=
  m.user.isSome && (match m.text with
    | some t => pyContains search_pattern t
    | none => false)

/-- Shape a matching raw message into the normalized record, resolving
the display name through the user-lookup side channel `uname`. -/
def toMessage (uname : String → String) (m : RawMsg) : Message :=
  { timestamp := m.ts
    user_id := m.user.getD ""
    user_name := uname (m.user.getD "")
    message_text := m.text.getD ""
    ts := m.ts }

/-- Model of the channel-history collaborator: an ordered message history
paged by an offset cursor, plus an optional error schedule — the API call
with index `errorAt` raises a transport error. -/
structure Channel where
  history : List RawMsg
  errorAt : Option Nat

/-- One `conversations_history` call on the model channel: drop to the
cursor offset, take at most the requested page size.  `has_more` (and a
usable next cursor) hold exactly when messages remain past this page. -/
def channelPage (c : Channel) (offset req : Nat) : List RawMsg :=
  (c.history.drop offset).take req

/-- The `while total < limit` pagination loop of `get_ai_acq_messages`,
with the `except SlackApiError: return []` branch of the surrounding
`try` made explicit.  `fuel` is a structural bound on iterations (the
caller passes `limit + 1`, which is never exhausted since every continuing
iteration strictly increases `total`). -/
def fetchLoop (c : Channel) (uname : String → String) (limit : Nat) :
    Nat → Nat → Nat → Nat → List Message → List Message
  | 0, _, _, _, acc => acc
  | fuel + 1, callIdx, offset, total, acc =>
    if total < limit then
      if c.errorAt = some callIdx then []
      else
        if offset + (channelPage c offset (min 200 (limit - total))).length
            < c.history.length then
          fetchLoop c uname limit fuel (callIdx + 1)
            (offset + (channelPage c offset (min 200 (limit - total))).length)
            (total + (channelPage c offset (min 200 (limit - total))).length)
            (acc ++ ((channelPage c offset (min 200 (limit - total))).filter
              matchesTag).map (toMessage uname))
        else
          acc ++ ((channelPage c offset (min 200 (limit - total))).filter
            matchesTag).map (toMessage uname)
    else acc

/-- Embedding of `get_ai_acq_messages` (`slack_monitor.py`): paginate the
channel history, keep messages bearing the mention token, return `[]` if
a transport error is raised. -/
def get_ai_acq_messages (c : Channel) (uname : String → String) (limit : Nat := 1000) :
    List Message :=
  fetchLoop c uname limit (limit + 1) 0 0 0 []

/-! ### Thread statistics (`get_thread_stats`, `dashboard.py`) -/

/-- Thread reply as delivered by `conversations_replies`: optional author,
optional timestamp, and the names of the reactions attached to it. -/
structure Reply where
  user : Option String
  ts : Option Rat
  reactions : List String
deriving DecidableEq

/-- The resolution marker reaction name. -/
def marker : String := "white_check_mark"

/-- A reply carries the resolution marker. -/
def hasMarker (r : Reply) : Bool := r.reactions.any (fun n => decide (n = marker))

/-- The statistics dict accumulated by `get_thread_stats`.  The responder
set and the per-author `Counter` are modelled as a `Finset` and a total
count function. -/
structure ThreadStats where
  threads_with_replies : Nat
  threads_with_resolution : Nat
  response_times : List Rat
  responders : Finset String
  active_responders : String → Nat
  total_threads : Nat

/-- Initial statistics: all tallies empty, `total_threads` fixed up front
to the number of input messages. -/
def initStats (n : Nat) : ThreadStats :=
  { threads_with_replies := 0
    threads_with_resolution := 0
    response_times := []
    responders := ∅
    active_responders := fun _ => 0
    total_threads := n }

/-- `thread_replies = replies[1:] if len(replies) > 1 else []`: the raw
reply list with the parent (first entry) removed. -/
def pyTail (replies : List Reply) : List Reply :=
  if replies.length > 1 then replies.drop 1 else []

/-- Record one reply by display name `name`: add to the responder set and
increment the per-author counter. -/
def noteResponder (s : ThreadStats) (name : String) : ThreadStats :=
  { s with
    responders := insert name s.responders
    active_responders := fun n =>
      if n = name then s.active_responders n + 1 else s.active_responders n }

/-- The reply loop of `get_thread_stats`: tally the author (when the reply
has one), then check for the resolution marker — the first marked reply
increments `threads_with_resolution` and terminates the loop (`break`). -/
def tallyReplies (uname : String → String) : List Reply → ThreadStats → ThreadStats
  | [], s => s
  | r :: rest, s =>
    let s1 := match r.user with
      | some u => noteResponder s (uname u)
      | none => s
    if hasMarker r then
      { s1 with threads_with_resolution := s1.threads_with_resolution + 1 }
    else tallyReplies uname rest s1

/-- Body of the per-message loop of `get_thread_stats`: fetch the thread's
replies (skipping the thread on API error), and if any reply exists record
the thread, its first-response latency in minutes (kept only when strictly
positive; a missing first-reply timestamp defaults to the parent's), and
the reply tallies. -/
def threadStep (uname : String → String) (fetch : Rat → Option (List Reply))
    (s : ThreadStats) (msg : Message) : ThreadStats :=
  match fetch msg.ts with
  | none => s
  | some replies =>
    match pyTail replies with
    | [] => s
    | first :: rest =>
      let s1 := { s with threads_with_replies := s.threads_with_replies + 1 }
      let rt := (first.ts.getD msg.ts - msg.ts) / 60
      let s2 := if 0 < rt then { s1 with response_times := s1.response_times ++ [rt] } else s1
      tallyReplies uname (first :: rest) s2

/-- Embedding of `get_thread_stats` (`dashboard.py`). -/
def get_thread_stats (uname : String → String) (fetch : Rat → Option (List Reply))
    (messages : List Message) : ThreadStats :=
  messages.foldl (threadStep uname fetch) (initStats messages.length)

/-! ### Leaderboard (`SlackMonitor.get_top_performers`, `slack_monitor.py`) -/

/-- `scores[name] = scores.get(name, 0) + 1` on an insertion-ordered
association list (Python dict semantics: an existing key keeps its
position, a new key is appended). -/
def bumpScore (scores : List (String × Nat)) (name : String) : List (String × Nat) :=
  if scores.any (fun p => decide (p.1 = name)) then
    scores.map (fun p => if p.1 = name then (p.1, p.2 + 1) else p)
  else scores ++ [(name, 1)]

/-- The reply loop of `get_top_performers`: every reply that has an author
and carries the marker awards one point to the author's display name. -/
def tallyMarked (uname : String → String) : List Reply → List (String × Nat) → List (String × Nat)
  | [], scores => scores
  | r :: rest, scores =>
    match r.user with
    | none => tallyMarked uname rest scores
    | some u =>
      if hasMarker r then tallyMarked uname rest (bumpScore scores (uname u))
      else tallyMarked uname rest scores

/-- Body of the per-message loop of `get_top_performers`: fetch replies
(skipping the thread on API error) and tally the marked replies of the
thread tail `replies[1:]`. -/
def perfStep (uname : String → String) (fetch : Rat → Option (List Reply))
    (scores : List (String × Nat)) (msg : Message) : List (String × Nat) :=
  match fetch msg.ts with
  | none => scores
  | some replies => tallyMarked uname (replies.drop 1) scores

/-- Embedding of `get_top_performers` (`slack_monitor.py`): accumulate
scores, then `sorted(scores.items(), key=score, reverse=True)` — Python's
stable descending sort, modelled by `List.mergeSort` with the total
reflexive comparison `b.2 ≤ a.2`. -/
def get_top_performers (uname : String → String) (fetch : Rat → Option (List Reply))
    (messages : List Message) : List (String × Nat) :=
  (messages.foldl (perfStep uname fetch) []).mergeSort (fun a b => decide (b.2 ≤ a.2))

/-! ### Specification-side observations used to state the claims -/

/-- The prefix of a reply list actually visited by the tally loop of
`get_thread_stats`: everything up to and including the first reply that
carries the resolution marker (the loop's `break`). -/
def visitedReplies : List Reply → List Reply
  | [] => []
  | r :: rest => if hasMarker r then [r] else r :: visitedReplies rest

/-- The reply is authored, and its author's display name resolves to
`name`. -/
def authoredBy (uname : String → String) (name : String) (r : Reply) : Bool :=
  match r.user with
  | some u => decide (uname u = name)
  | none => false

/-- Number of replies authored by `name` among the replies of `msg`
actually visited by the `get_thread_stats` loop. -/
def visitedCount (uname : String → String) (fetch : Rat → Option (List Reply))
    (name : String) (msg : Message) : Nat :=
  match fetch msg.ts with
  | none => 0
  | some replies => ((visitedReplies (pyTail replies)).filter (authoredBy uname name)).length

/-- Total over all threads of `visitedCount`. -/
def totalVisitedCount (uname : String → String) (fetch : Rat → Option (List Reply))
    (messages : List Message) (name : String) : Nat :=
  (messages.map (visitedCount uname fetch name)).sum

/-- The reply is authored by `name` and carries the resolution marker. -/
def markedBy (uname : String → String) (name : String) (r : Reply) : Bool :=
  authoredBy uname name r && hasMarker r

/-- Number of marker-bearing replies authored by `name` in `msg`'s thread
(parent excluded), zero when the fetch fails. -/
def markedCount (uname : String → String) (fetch : Rat → Option (List Reply))
    (name : String) (msg : Message) : Nat :=
  match fetch msg.ts with
  | none => 0
  | some replies => ((replies.drop 1).filter (markedBy uname name)).length

/-- Total over all threads of `markedCount`. -/
def totalMarkedCount (uname : String → String) (fetch : Rat → Option (List Reply))
    (messages : List Message) (name : String) : Nat :=
  (messages.map (markedCount uname fetch name)).sum

/-- Append a name only if it is not already present (first-occurrence
order). -/
def insertNew (l : List String) (n : String) : List String :=
  if n ∈ l then l else l ++ [n]

/-- Display names of the marked, authored replies of one thread, in reply
order. -/
def markedNames (uname : String → String) (replies : List Reply) : List String :=
  (replies.drop 1).filterMap (fun r =>
    match r.user with
    | some u => if hasMarker r then some (uname u) else none
    | none => none)

/-- Order in which the leaderboard first encounters each scorer. -/
def encounterOrder (uname : String → String) (fetch : Rat → Option (List Reply))
    (messages : List Message) : List String :=
  messages.foldl (fun acc msg =>
    match fetch msg.ts with
    | none => acc
    | some replies => (markedNames uname replies).foldl insertNew acc) []

/-- Score of `name` in an association list, `0` when absent. -/
def lookup0 (l : List (String × Nat)) (name : String) : Nat :=
  ((l.find? (fun p => decide (p.1 = name))).map Prod.snd).getD 0

/-- First-response latency recorded for one thread, if any: the minutes
from parent to first reply, kept only when strictly positive. -/
def specRT (fetch : Rat → Option (List Reply)) (msg : Message) : Option Rat :=
  match fetch msg.ts with
  | none => none
  | some replies =>
    match pyTail replies with
    | [] => none
    | first :: _ =>
      let rt := (first.ts.getD msg.ts - msg.ts) / 60
      if 0 < rt then some rt else none

/-- The thread's reply fetch succeeds and it has at least one reply. -/
def hasReplyB (fetch : Rat → Option (List Reply)) (msg : Message) : Bool :=
  match fetch msg.ts with
  | none => false
  | some replies => !(pyTail replies).isEmpty

/-- The thread's reply fetch succeeds and some reply carries the marker. -/
def resolvedB (fetch : Rat → Option (List Reply)) (msg : Message) : Bool :=
  match fetch msg.ts with
  | none => false
  | some replies => (pyTail replies).any hasMarker

/-! ### Fiscal calendar lemmas -/

theorem quarter_mem (d : Date) :
    (get_fiscal_quarter d).2.1 = 1 ∨ (get_fiscal_quarter d).2.1 = 2 ∨
    (get_fiscal_quarter d).2.1 = 3 ∨ (get_fiscal_quarter d).2.1 = 4 := by
  unfold get_fiscal_quarter
  split
  · simp
  · split
    · simp
    · split <;> simp

theorem quarter_bounds (d : Date) :
    1 ≤ (get_fiscal_quarter d).2.1 ∧ (get_fiscal_quarter d).2.1 ≤ 4 := by
  rcases quarter_mem d with h | h | h | h <;> rw [h] <;> omega

theorem trailingLoop_length (fy : Int) (q n : Nat) :
    (trailingLoop fy q n).length = n := by
  induction n generalizing fy q with
  | zero => rfl
  | succ n ih =>
    unfold trailingLoop
    split <;> simp [ih]

theorem trailingLoop_head (fy : Int) (q n : Nat) :
    (trailingLoop fy q (n + 1)).head? = some (fy, q) := by
  unfold trailingLoop
  split <;> rfl

theorem trailingLoop_quarter_bounds (fy : Int) (q n : Nat) (h1 : 1 ≤ q) (h2 : q ≤ 4) :
    ∀ p ∈ trailingLoop fy q n, 1 ≤ p.2 ∧ p.2 ≤ 4 := by
  induction n generalizing fy q with
  | zero => intro p hp; simp [trailingLoop] at hp
  | succ n ih =>
    intro p hp
    unfold trailingLoop at hp
    rcases List.mem_cons.mp hp with h | h
    · subst h; exact ⟨h1, h2⟩
    · split at h
      · exact ih (fy - 1) 4 (by omega) (by omega) p h
      · exact ih fy (q - 1) (by omega) (by omega) p h

theorem trailingLoop_chain (fy : Int) (q n : Nat) (h1 : 1 ≤ q) (h2 : q ≤ 4) :
    List.Chain' (fun a b => chronoIdx b = chronoIdx a - 1) (trailingLoop fy q n) := by
  induction n generalizing fy q with
  | zero => exact List.chain'_nil
  | succ n ih =>
    unfold trailingLoop
    split
    · rename_i hq
      refine List.chain'_cons'.mpr ⟨?_, ih (fy - 1) 4 (by omega) (by omega)⟩
      intro y hy
      cases n with
      | zero => simp [trailingLoop] at hy
      | succ m =>
        rw [trailingLoop_head] at hy
        cases hy
        have hq1 : q = 1 := by omega
        subst hq1
        simp [chronoIdx]
        ring
    · rename_i hq
      refine List.chain'_cons'.mpr ⟨?_, ih fy (q - 1) (by omega) (by omega)⟩
      intro y hy
      cases n with
      | zero => simp [trailingLoop] at hy
      | succ m =>
        rw [trailingLoop_head] at hy
        cases hy
        simp [chronoIdx]
        omega

theorem label_eq (d : Date) :
    (get_fiscal_quarter d).2.2 =
      "FY" ++ toString ((get_fiscal_quarter d).1 % 100) ++ " Q" ++
        toString (get_fiscal_quarter d).2.1 := by
  unfold get_fiscal_quarter
  split
  · show _ = _ ++ _ ++ " Q" ++ toString 1
    conv_rhs => rw [String.append_assoc]
    congr 1
  · split
    · show _ = _ ++ _ ++ " Q" ++ toString 2
      conv_rhs => rw [String.append_assoc]
      congr 1
    · split
      · show _ = _ ++ _ ++ " Q" ++ toString 3
        conv_rhs => rw [String.append_assoc]
        congr 1
      · show _ = _ ++ _ ++ " Q" ++ toString 4
        conv_rhs => rw [String.append_assoc]
        congr 1

theorem fiscal_cases (y : Int) (m dd : Nat) (h1 : 1 ≤ m) (h2 : m ≤ 12) :
    (m ∈ [2, 3, 4] → (get_fiscal_quarter ⟨y, m, dd⟩).2.1 = 1)
  ∧ (m ∈ [5, 6, 7] → (get_fiscal_quarter ⟨y, m, dd⟩).2.1 = 2)
  ∧ (m ∈ [8, 9, 10] → (get_fiscal_quarter ⟨y, m, dd⟩).2.1 = 3)
  ∧ (m ∈ [11, 12, 1] → (get_fiscal_quarter ⟨y, m, dd⟩).2.1 = 4)
  ∧ (2 ≤ m → (get_fiscal_quarter ⟨y, m, dd⟩).1 = y + 1)
  ∧ (m = 1 → (get_fiscal_quarter ⟨y, m, dd⟩).1 = y) := by
  interval_cases m <;> simp [get_fiscal_quarter]

/-- C3: for every date, `get_fiscal_quarter` maps months {2,3,4} to Q1,
{5,6,7} to Q2, {8,9,10} to Q3 and {11,12,1} to Q4; the fiscal year is the
calendar year plus one for months 2–12 and the calendar year for month 1;
the label is "FY" ++ fiscal_year mod 100 ++ " Q" ++ quarter; and
Aug 15 2024 ↦ "FY25 Q3", Jan 20 2025 ↦ "FY25 Q4", Feb 3 2025 ↦ "FY26 Q1". -/
theorem fiscal_quarter_claim (d : Date) (h1 : 1 ≤ d.month) (h2 : d.month ≤ 12) :
    (d.month ∈ [2, 3, 4] → (get_fiscal_quarter d).2.1 = 1)
  ∧ (d.month ∈ [5, 6, 7] → (get_fiscal_quarter d).2.1 = 2)
  ∧ (d.month ∈ [8, 9, 10] → (get_fiscal_quarter d).2.1 = 3)
  ∧ (d.month ∈ [11, 12, 1] → (get_fiscal_quarter d).2.1 = 4)
  ∧ (2 ≤ d.month → (get_fiscal_quarter d).1 = d.year + 1)
  ∧ (d.month = 1 → (get_fiscal_quarter d).1 = d.year)
  ∧ (get_fiscal_quarter d).2.2 =
      "FY" ++ toString ((get_fiscal_quarter d).1 % 100) ++ " Q" ++
        toString (get_fiscal_quarter d).2.1
  ∧ get_fiscal_quarter ⟨2024, 8, 15⟩ = (2025, 3, "FY25 Q3")
  ∧ get_fiscal_quarter ⟨2025, 1, 20⟩ = (2025, 4, "FY25 Q4")
  ∧ get_fiscal_quarter ⟨2025, 2, 3⟩ = (2026, 1, "FY26 Q1") := by
  obtain ⟨y, m, dd⟩ := d
  obtain ⟨p1, p2, p3, p4, p5, p6⟩ := fiscal_cases y m dd h1 h2
  exact ⟨p1, p2, p3, p4, p5, p6, label_eq _, by decide, by decide, by decide⟩

/-- Witness for C3 at the concrete date August 15 2024. -/
theorem fiscal_quarter_claim_witness :
    ((8 : Nat) ∈ [2, 3, 4] → (get_fiscal_quarter ⟨2024, 8, 15⟩).2.1 = 1)
  ∧ ((8 : Nat) ∈ [5, 6, 7] → (get_fiscal_quarter ⟨2024, 8, 15⟩).2.1 = 2)
  ∧ ((8 : Nat) ∈ [8, 9, 10] → (get_fiscal_quarter ⟨2024, 8, 15⟩).2.1 = 3)
  ∧ ((8 : Nat) ∈ [11, 12, 1] → (get_fiscal_quarter ⟨2024, 8, 15⟩).2.1 = 4)
  ∧ (2 ≤ (8 : Nat) → (get_fiscal_quarter ⟨2024, 8, 15⟩).1 = 2024 + 1)
  ∧ ((8 : Nat) = 1 → (get_fiscal_quarter ⟨2024, 8, 15⟩).1 = 2024)
  ∧ (get_fiscal_quarter ⟨2024, 8, 15⟩).2.2 =
      "FY" ++ toString ((get_fiscal_quarter ⟨2024, 8, 15⟩).1 % 100) ++ " Q" ++
        toString (get_fiscal_quarter ⟨2024, 8, 15⟩).2.1
  ∧ get_fiscal_quarter ⟨2024, 8, 15⟩ = (2025, 3, "FY25 Q3")
  ∧ get_fiscal_quarter ⟨2025, 1, 20⟩ = (2025, 4, "FY25 Q4")
  ∧ get_fiscal_quarter ⟨2025, 2, 3⟩ = (2026, 1, "FY26 Q1") :=
  fiscal_quarter_claim ⟨2024, 8, 15⟩ (by decide) (by decide)

/-- C8: for every reference date and n ≥ 1, `get_trailing_quarters`
returns exactly n pairs, the first being the quarter containing the
reference date, each consecutive pair exactly one quarter earlier
(chronological index drops by exactly 1, with wraparound), hence strictly
descending with no gaps and no repeats, and every quarter number lies in
1..4. -/
theorem trailing_quarters_claim (now : Date) (n : Nat) (hn : 1 ≤ n) :
    (get_trailing_quarters now n).length = n
  ∧ (get_trailing_quarters now n).head? =
      some ((get_fiscal_quarter now).1, (get_fiscal_quarter now).2.1)
  ∧ List.Chain' (fun a b => chronoIdx b = chronoIdx a - 1) (get_trailing_quarters now n)
  ∧ List.Pairwise (fun a b => chronoIdx b < chronoIdx a) (get_trailing_quarters now n)
  ∧ (get_trailing_quarters now n).Nodup
  ∧ ∀ p ∈ get_trailing_quarters now n, 1 ≤ p.2 ∧ p.2 ≤ 4 := by
  obtain ⟨hq1, hq2⟩ := quarter_bounds now
  have hchain := trailingLoop_chain (get_fiscal_quarter now).1 (get_fiscal_quarter now).2.1 n hq1 hq2
  have hpw : List.Pairwise (fun a b => chronoIdx b < chronoIdx a) (get_trailing_quarters now n) := by
    haveI : IsTrans (Int × Nat) (fun a b => chronoIdx b < chronoIdx a) :=
      ⟨fun a b c hab hbc => lt_trans hbc hab⟩
    exact List.chain'_iff_pairwise.mp (hchain.imp (fun a b h => by omega))
  refine ⟨trailingLoop_length _ _ _, ?_, hchain, hpw, ?_, ?_⟩
  · obtain ⟨m, rfl⟩ : ∃ m, n = m + 1 := ⟨n - 1, by omega⟩
    exact trailingLoop_head _ _ _
  · exact hpw.imp (fun h => by intro heq; subst heq; exact lt_irrefl _ h)
  · exact trailingLoop_quarter_bounds _ _ _ hq1 hq2

/-- Witness for C8 at February 3 2025 with n = 4. -/
theorem trailing_quarters_claim_witness :
    (get_trailing_quarters ⟨2025, 2, 3⟩ 4).length = 4
  ∧ (get_trailing_quarters ⟨2025, 2, 3⟩ 4).head? =
      some ((get_fiscal_quarter ⟨2025, 2, 3⟩).1, (get_fiscal_quarter ⟨2025, 2, 3⟩).2.1)
  ∧ List.Chain' (fun a b => chronoIdx b = chronoIdx a - 1) (get_trailing_quarters ⟨2025, 2, 3⟩ 4)
  ∧ List.Pairwise (fun a b => chronoIdx b < chronoIdx a) (get_trailing_quarters ⟨2025, 2, 3⟩ 4)
  ∧ (get_trailing_quarters ⟨2025, 2, 3⟩ 4).Nodup
  ∧ ∀ p ∈ get_trailing_quarters ⟨2025, 2, 3⟩ 4, 1 ≤ p.2 ∧ p.2 ≤ 4 :=
  trailing_quarters_claim ⟨2025, 2, 3⟩ 4 (by decide)

/-! ### Ingestion lemmas -/

theorem channelPage_length_le (c : Channel) (offset req : Nat) :
    (channelPage c offset req).length ≤ req := by
  unfold channelPage
  exact (List.length_take _ _).trans_le (min_le_left _ _)

theorem fetchLoop_length_le (c : Channel) (uname : String → String) (limit : Nat) :
    ∀ (fuel callIdx offset total : Nat) (acc : List Message),
      acc.length ≤ total → total ≤ limit →
      (fetchLoop c uname limit fuel callIdx offset total acc).length ≤ limit := by
  intro fuel
  induction fuel with
  | zero => intro _ _ _ acc h1 h2; exact h1.trans h2
  | succ fuel ih =>
    intro callIdx offset total acc h1 h2
    unfold fetchLoop
    split
    · split
      · simp
      · have hpage := channelPage_length_le c offset (min 200 (limit - total))
        have hreq : min 200 (limit - total) ≤ limit - total := min_le_right _ _
        have hacc2 : (acc ++ ((channelPage c offset (min 200 (limit - total))).filter
            matchesTag).map (toMessage uname)).length
            ≤ total + (channelPage c offset (min 200 (limit - total))).length := by
          simp only [List.length_append, List.length_map]
          have := List.length_filter_le matchesTag (channelPage c offset (min 200 (limit - total)))
          omega
        split
        · exact ih _ _ _ _ hacc2 (by omega)
        · exact hacc2.trans (by omega)
    · exact h1.trans h2

theorem fetchLoop_complete (c : Channel) (uname : String → String) (limit : Nat)
    (hne : c.errorAt = none) :
    ∀ (fuel callIdx offset total : Nat) (acc : List Message),
      total ≤ limit →
      c.history.length - offset ≤ limit - total →
      limit - total < fuel →
      fetchLoop c uname limit fuel callIdx offset total acc
        = acc ++ ((c.history.drop offset).filter matchesTag).map (toMessage uname) := by
  intro fuel
  induction fuel with
  | zero => intro _ _ _ _ _ _ h; omega
  | succ fuel ih =>
    intro callIdx offset total acc h1 h2 h3
    unfold fetchLoop
    split
    · rw [hne]
      simp only [reduceCtorEq, if_false]
      set req := min 200 (limit - total) with hreq
      have hreq1 : 1 ≤ req := by rename_i hlt; omega
      have hpl : (channelPage c offset req).length = min req (c.history.length - offset) := by
        simp [channelPage, List.length_take, List.length_drop]
      split
      · rename_i hmore
        have hple : (channelPage c offset req).length = req := by
          rw [hpl]; rw [hpl] at hmore; omega
        have hsplit : c.history.drop offset
            = channelPage c offset req ++ c.history.drop (offset + req) := by
          have hdd : (c.history.drop offset).drop req = c.history.drop (offset + req) := by
            rw [List.drop_drop, Nat.add_comm]
          rw [← hdd]
          exact (List.take_append_drop req (c.history.drop offset)).symm
        rw [hple, ih (callIdx + 1) (offset + req) (total + req) _ (by omega) (by omega) (by omega)]
        rw [hsplit, List.filter_append, List.map_append, List.append_assoc]
      · rename_i hmore
        have hall : channelPage c offset req = c.history.drop offset := by
          apply List.take_of_length_le
          rw [hpl] at hmore
          simp only [List.length_drop]
          omega
        rw [hall]
    · rename_i hge
      have hdrop : c.history.drop offset = [] := by
        apply List.drop_eq_nil_of_le
        omega
      rw [hdrop]
      simp

theorem fetchLoop_error_all_or_nothing (c : Channel) (uname : String → String) (limit : Nat) :
    ∀ (fuel callIdx offset total : Nat) (acc : List Message),
      fetchLoop c uname limit fuel callIdx offset total acc
        = fetchLoop { c with errorAt := none } uname limit fuel callIdx offset total acc
      ∨ fetchLoop c uname limit fuel callIdx offset total acc = [] := by
  intro fuel
  induction fuel with
  | zero => intro _ _ _ _; exact Or.inl rfl
  | succ fuel ih =>
    intro callIdx offset total acc
    by_cases hlt : total < limit
    · by_cases herr : c.errorAt = some callIdx
      · right
        unfold fetchLoop
        rw [if_pos hlt, if_pos herr]
      · unfold fetchLoop
        simp only [channelPage, if_pos hlt, if_neg herr, reduceCtorEq, if_false]
        split
        · exact ih _ _ _ _
        · exact Or.inl rfl
    · left
      unfold fetchLoop
      rw [if_neg hlt, if_neg hlt]

/-- C6: with no transport error, `get_ai_acq_messages` never returns more
than `limit` messages, and when the whole channel history fits inside the
scan bound it returns exactly the matching messages of the history, in
order. -/
theorem ingestion_bound_claim (c : Channel) (uname : String → String) (limit : Nat)
    (hne : c.errorAt = none) :
    (get_ai_acq_messages c uname limit).length ≤ limit
  ∧ (c.history.length ≤ limit →
      get_ai_acq_messages c uname limit
        = (c.history.filter matchesTag).map (toMessage uname)) := by
  constructor
  · exact fetchLoop_length_le c uname limit (limit + 1) 0 0 0 [] (by simp) (Nat.zero_le _)
  · intro hlen
    have := fetchLoop_complete c uname limit hne (limit + 1) 0 0 0 [] (Nat.zero_le _)
      (by omega) (by omega)
    simpa [get_ai_acq_messages] using this

/-- Concrete channel for the C6 witness: two raw messages, one matching. -/
def c6Chan : Channel :=
  { history :=
      [{ user := some "U1", text := some ("x " ++ search_pattern ++ " y"), ts := 1 },
       { user := none, text := some "no tag", ts := 2 }]
    errorAt := none }

/-- Witness for C6: the two-message channel with scan bound 10. -/
theorem ingestion_bound_claim_witness :
    (get_ai_acq_messages c6Chan id 10).length ≤ 10
  ∧ (c6Chan.history.length ≤ 10 →
      get_ai_acq_messages c6Chan id 10
        = (c6Chan.history.filter matchesTag).map (toMessage id)) :=
  ingestion_bound_claim c6Chan id 10 rfl

/-- C2, amended: on a transport/API error `get_ai_acq_messages` returns the
empty list, discarding partial results — so every run yields either the
complete no-error result or `[]`, never a nonempty proper partial list. -/
theorem ingestion_error_claim (c : Channel) (uname : String → String) (limit : Nat) :
    get_ai_acq_messages c uname limit
      = get_ai_acq_messages { c with errorAt := none } uname limit
  ∨ get_ai_acq_messages c uname limit = [] :=
  fetchLoop_error_all_or_nothing c uname limit (limit + 1) 0 0 0 []

/-- Raw message whose text is exactly the mention token. -/
def cexRaw : RawMsg := { user := some "U1", text := some search_pattern, ts := 0 }

/-- Filler raw message with no author (cheap to filter out). -/
def cexPad : RawMsg := { user := none, text := none, ts := 0 }

/-- Channel whose second history page fetch raises: 201 messages force a
second API call (the first page is capped at 200), and the error schedule
fails that second call.  The first page contains one matching message. -/
def cexChan : Channel :=
  { history := cexRaw :: List.replicate 200 cexPad, errorAt := some 1 }

set_option maxRecDepth 40000 in
/-- Counterexample to C2 as stated: the first (successful) page contains a
matching message, so the accumulated partial result is nonempty, yet the
call returns `[]`, not the partial result. -/
theorem ingestion_error_cex :
    get_ai_acq_messages cexChan id 1000 = []
  ∧ (cexChan.history.take 200).filter matchesTag = [cexRaw] := by
  constructor
  · rfl
  · rfl

/-! ### Thread-statistics lemmas -/

theorem tally_resolution (uname : String → String) :
    ∀ (rs : List Reply) (s : ThreadStats),
      (tallyReplies uname rs s).threads_with_resolution
        = s.threads_with_resolution + (if rs.any hasMarker then 1 else 0) := by
  intro rs
  induction rs with
  | nil => intro s; simp [tallyReplies]
  | cons r rest ih =>
    intro s
    unfold tallyReplies
    by_cases hm : hasMarker r
    · simp [hm]
      cases r.user <;> simp [noteResponder]
    · simp only [hm, if_false, List.any_cons, Bool.false_or]
      cases hu : r.user <;> simp [ih, noteResponder]

theorem tally_with_replies (uname : String → String) :
    ∀ (rs : List Reply) (s : ThreadStats),
      (tallyReplies uname rs s).threads_with_replies = s.threads_with_replies := by
  intro rs
  induction rs with
  | nil => intro s; rfl
  | cons r rest ih =>
    intro s
    unfold tallyReplies
    by_cases hm : hasMarker r
    · simp only [hm, if_true]
      cases r.user <;> rfl
    · simp only [hm, if_false]
      cases r.user <;> simp [ih, noteResponder]

theorem tally_response_times (uname : String → String) :
    ∀ (rs : List Reply) (s : ThreadStats),
      (tallyReplies uname rs s).response_times = s.response_times := by
  intro rs
  induction rs with
  | nil => intro s; rfl
  | cons r rest ih =>
    intro s
    unfold tallyReplies
    by_cases hm : hasMarker r
    · simp only [hm, if_true]
      cases r.user <;> rfl
    · simp only [hm, if_false]
      cases r.user <;> simp [ih, noteResponder]

theorem tally_total_threads (uname : String → String) :
    ∀ (rs : List Reply) (s : ThreadStats),
      (tallyReplies uname rs s).total_threads = s.total_threads := by
  intro rs
  induction rs with
  | nil => intro s; rfl
  | cons r rest ih =>
    intro s
    unfold tallyReplies
    by_cases hm : hasMarker r
    · simp only [hm, if_true]
      cases r.user <;> rfl
    · simp only [hm, if_false]
      cases r.user <;> simp [ih, noteResponder]

theorem tally_active (uname : String → String) (name : String) :
    ∀ (rs : List Reply) (s : ThreadStats),
      (tallyReplies uname rs s).active_responders name
        = s.active_responders name
          + ((visitedReplies rs).filter (authoredBy uname name)).length := by
  intro rs
  induction rs with
  | nil => intro s; simp [tallyReplies, visitedReplies]
  | cons r rest ih =>
    intro s
    unfold tallyReplies visitedReplies
    by_cases hm : hasMarker r
    · simp only [hm, if_true]
      cases hu : r.user with
      | none =>
        have : authoredBy uname name r = false := by simp [authoredBy, hu]
        simp [this]
      | some u =>
        by_cases hn : uname u = name
        · have : authoredBy uname name r = true := by simp [authoredBy, hu, hn]
          simp [this, noteResponder, hn]
        · have : authoredBy uname name r = false := by simp [authoredBy, hu, hn]
          simp [this, noteResponder, Ne.symm hn]
    · simp only [hm, if_false]
      cases hu : r.user with
      | none =>
        have : authoredBy uname name r = false := by simp [authoredBy, hu]
        simp [ih, this]
      | some u =>
        by_cases hn : uname u = name
        · have : authoredBy uname name r = true := by simp [authoredBy, hu, hn]
          simp [ih, this, noteResponder, hn]
          omega
        · have : authoredBy uname name r = false := by simp [authoredBy, hu, hn]
          simp [ih, this, noteResponder, Ne.symm hn]

theorem tally_responders (uname : String → String) (name : String) :
    ∀ (rs : List Reply) (s : ThreadStats),
      name ∈ (tallyReplies uname rs s).responders
        ↔ name ∈ s.responders
          ∨ 0 < ((visitedReplies rs).filter (authoredBy uname name)).length := by
  intro rs
  induction rs with
  | nil => intro s; simp [tallyReplies, visitedReplies]
  | cons r rest ih =>
    intro s
    unfold tallyReplies visitedReplies
    by_cases hm : hasMarker r
    · simp only [hm, if_true]
      cases hu : r.user with
      | none =>
        have : authoredBy uname name r = false := by simp [authoredBy, hu]
        simp [this]
      | some u =>
        by_cases hn : uname u = name
        · have : authoredBy uname name r = true := by simp [authoredBy, hu, hn]
          simp [this, noteResponder, hn, Finset.mem_insert]
        · have : authoredBy uname name r = false := by simp [authoredBy, hu, hn]
          simp [this, noteResponder, Finset.mem_insert, Ne.symm hn]
    · simp only [hm, if_false]
      cases hu : r.user with
      | none =>
        have : authoredBy uname name r = false := by simp [authoredBy, hu]
        simp [ih, this]
      | some u =>
        by_cases hn : uname u = name
        · have : authoredBy uname name r = true := by simp [authoredBy, hu, hn]
          simp [ih, this, noteResponder, hn, Finset.mem_insert]
        · have : authoredBy uname name r = false := by simp [authoredBy, hu, hn]
          simp [ih, this, noteResponder, Finset.mem_insert, Ne.symm hn]

theorem step_resolution (uname : String → String) (fetch : Rat → Option (List Reply))
    (s : ThreadStats) (msg : Message) :
    (threadStep uname fetch s msg).threads_with_resolution
      = s.threads_with_resolution + (if resolvedB fetch msg then 1 else 0) := by
  unfold threadStep resolvedB
  cases fetch msg.ts with
  | none => simp
  | some replies =>
    cases hpt : pyTail replies with
    | nil => simp [hpt]
    | cons first rest =>
      simp only [hpt]
      rw [tally_resolution]
      split <;> simp

theorem step_with_replies (uname : String → String) (fetch : Rat → Option (List Reply))
    (s : ThreadStats) (msg : Message) :
    (threadStep uname fetch s msg).threads_with_replies
      = s.threads_with_replies + (if hasReplyB fetch msg then 1 else 0) := by
  unfold threadStep hasReplyB
  cases fetch msg.ts with
  | none => simp
  | some replies =>
    cases hpt : pyTail replies with
    | nil => simp [hpt]
    | cons first rest =>
      simp only [hpt]
      rw [tally_with_replies]
      split <;> simp

theorem step_response_times (uname : String → String) (fetch : Rat → Option (List Reply))
    (s : ThreadStats) (msg : Message) :
    (threadStep uname fetch s msg).response_times
      = s.response_times ++ (specRT fetch msg).toList := by
  unfold threadStep specRT
  cases fetch msg.ts with
  | none => simp
  | some replies =>
    cases hpt : pyTail replies with
    | nil => simp [hpt]
    | cons first rest =>
      simp only [hpt]
      rw [tally_response_times]
      split <;> rename_i h <;> simp [h]

theorem step_total_threads (uname : String → String) (fetch : Rat → Option (List Reply))
    (s : ThreadStats) (msg : Message) :
    (threadStep uname fetch s msg).total_threads = s.total_threads := by
  unfold threadStep
  cases fetch msg.ts with
  | none => rfl
  | some replies =>
    cases hpt : pyTail replies with
    | nil => simp [hpt]
    | cons first rest =>
      simp only [hpt]
      rw [tally_total_threads]
      split <;> rfl

theorem step_active (uname : String → String) (fetch : Rat → Option (List Reply))
    (name : String) (s : ThreadStats) (msg : Message) :
    (threadStep uname fetch s msg).active_responders name
      = s.active_responders name + visitedCount uname fetch name msg := by
  unfold threadStep visitedCount
  cases fetch msg.ts with
  | none => simp
  | some replies =>
    cases hpt : pyTail replies with
    | nil => simp [hpt, visitedReplies]
    | cons first rest =>
      simp only [hpt]
      rw [tally_active]
      split <;> rfl

theorem step_responders (uname : String → String) (fetch : Rat → Option (List Reply))
    (name : String) (s : ThreadStats) (msg : Message) :
    name ∈ (threadStep uname fetch s msg).responders
      ↔ name ∈ s.responders ∨ 0 < visitedCount uname fetch name msg := by
  unfold threadStep visitedCount
  cases fetch msg.ts with
  | none => simp
  | some replies =>
    cases hpt : pyTail replies with
    | nil => simp [hpt, visitedReplies]
    | cons first rest =>
      simp only [hpt]
      rw [tally_responders]
      constructor
      · rintro (h | h)
        · left
          revert h
          split <;> exact id
        · right; exact h
      · rintro (h | h)
        · left
          revert h
          split <;> exact id
        · right; exact h

theorem fold_resolution (uname : String → String) (fetch : Rat → Option (List Reply)) :
    ∀ (msgs : List Message) (s : ThreadStats),
      (msgs.foldl (threadStep uname fetch) s).threads_with_resolution
        = s.threads_with_resolution + msgs.countP (resolvedB fetch) := by
  intro msgs
  induction msgs with
  | nil => intro s; simp
  | cons m t ih =>
    intro s
    rw [List.foldl_cons, ih, step_resolution, List.countP_cons]
    split <;> omega

theorem fold_with_replies (uname : String → String) (fetch : Rat → Option (List Reply)) :
    ∀ (msgs : List Message) (s : ThreadStats),
      (msgs.foldl (threadStep uname fetch) s).threads_with_replies
        = s.threads_with_replies + msgs.countP (hasReplyB fetch) := by
  intro msgs
  induction msgs with
  | nil => intro s; simp
  | cons m t ih =>
    intro s
    rw [List.foldl_cons, ih, step_with_replies, List.countP_cons]
    split <;> omega

theorem fold_response_times (uname : String → String) (fetch : Rat → Option (List Reply)) :
    ∀ (msgs : List Message) (s : ThreadStats),
      (msgs.foldl (threadStep uname fetch) s).response_times
        = s.response_times ++ msgs.filterMap (specRT fetch) := by
  intro msgs
  induction msgs with
  | nil => intro s; simp
  | cons m t ih =>
    intro s
    rw [List.foldl_cons, ih, step_response_times, List.filterMap_cons]
    cases h : specRT fetch m <;> simp [h]

theorem fold_total_threads (uname : String → String) (fetch : Rat → Option (List Reply)) :
    ∀ (msgs : List Message) (s : ThreadStats),
      (msgs.foldl (threadStep uname fetch) s).total_threads = s.total_threads := by
  intro msgs
  induction msgs with
  | nil => intro s; rfl
  | cons m t ih =>
    intro s
    rw [List.foldl_cons, ih, step_total_threads]

theorem totalVisitedCount_cons (uname : String → String) (fetch : Rat → Option (List Reply))
    (name : String) (m : Message) (t : List Message) :
    totalVisitedCount uname fetch (m :: t) name
      = visitedCount uname fetch name m + totalVisitedCount uname fetch t name := by
  simp [totalVisitedCount]

theorem fold_active (uname : String → String) (fetch : Rat → Option (List Reply))
    (name : String) :
    ∀ (msgs : List Message) (s : ThreadStats),
      (msgs.foldl (threadStep uname fetch) s).active_responders name
        = s.active_responders name + totalVisitedCount uname fetch msgs name := by
  intro msgs
  induction msgs with
  | nil => intro s; simp [totalVisitedCount]
  | cons m t ih =>
    intro s
    rw [List.foldl_cons, ih, step_active, totalVisitedCount_cons]
    omega

theorem fold_responders (uname : String → String) (fetch : Rat → Option (List Reply))
    (name : String) :
    ∀ (msgs : List Message) (s : ThreadStats),
      name ∈ (msgs.foldl (threadStep uname fetch) s).responders
        ↔ name ∈ s.responders ∨ 0 < totalVisitedCount uname fetch msgs name := by
  intro msgs
  induction msgs with
  | nil => intro s; simp [totalVisitedCount]
  | cons m t ih =>
    intro s
    rw [List.foldl_cons, ih, step_responders, totalVisitedCount_cons]
    constructor
    · rintro ((h | h) | h)
      · exact Or.inl h
      · right; omega
      · right; omega
    · rintro (h | h)
      · exact Or.inl (Or.inl h)
      · by_cases hm : 0 < visitedCount uname fetch name m
        · exact Or.inl (Or.inr hm)
        · right
          omega

/-- C5: `threads_with_resolution` equals the number of threads whose
(successfully fetched) reply tail contains at least one marker-bearing
reply — each thread counts at most once no matter how many of its replies
carry the marker, the increment coming from the first such reply. -/
theorem resolution_once_claim (uname : String → String) (fetch : Rat → Option (List Reply))
    (messages : List Message) :
    (get_thread_stats uname fetch messages).threads_with_resolution
      = messages.countP (resolvedB fetch) := by
  unfold get_thread_stats
  rw [fold_resolution]
  simp [initStats]

/-- C9: the recorded first-response latencies are exactly, in thread
order, the values (first reply timestamp − parent timestamp)/60 for
threads with at least one reply, kept only when strictly positive — so
every recorded latency is positive, non-positive computed latencies are
dropped (never clamped to zero), and zero-reply threads record nothing. -/
theorem response_time_claim (uname : String → String) (fetch : Rat → Option (List Reply))
    (messages : List Message) :
    (get_thread_stats uname fetch messages).response_times
      = messages.filterMap (specRT fetch)
  ∧ ∀ x ∈ (get_thread_stats uname fetch messages).response_times, 0 < x := by
  have heq : (get_thread_stats uname fetch messages).response_times
      = messages.filterMap (specRT fetch) := by
    unfold get_thread_stats
    rw [fold_response_times]
    simp [initStats]
  refine ⟨heq, ?_⟩
  intro x hx
  rw [heq] at hx
  obtain ⟨m, _, hm⟩ := List.mem_filterMap.mp hx
  unfold specRT at hm
  revert hm
  cases fetch m.ts with
  | none => simp
  | some replies =>
    cases hpt : pyTail replies with
    | nil => simp [hpt]
    | cons first rest =>
      simp only [hpt]
      split <;> rename_i h
      · intro hs
        cases hs
        exact h
      · simp

/-- C10: the aggregate invariants — resolved threads never exceed threads
with replies, which never exceed the total, and the total equals the
input length (failed thread fetches included). -/
theorem stats_invariants_claim (uname : String → String) (fetch : Rat → Option (List Reply))
    (messages : List Message) :
    (get_thread_stats uname fetch messages).threads_with_resolution
      ≤ (get_thread_stats uname fetch messages).threads_with_replies
  ∧ (get_thread_stats uname fetch messages).threads_with_replies
      ≤ (get_thread_stats uname fetch messages).total_threads
  ∧ (get_thread_stats uname fetch messages).total_threads = messages.length := by
  have h1 : (get_thread_stats uname fetch messages).threads_with_resolution
      = messages.countP (resolvedB fetch) := by
    unfold get_thread_stats
    rw [fold_resolution]
    simp [initStats]
  have h2 : (get_thread_stats uname fetch messages).threads_with_replies
      = messages.countP (hasReplyB fetch) := by
    unfold get_thread_stats
    rw [fold_with_replies]
    simp [initStats]
  have h3 : (get_thread_stats uname fetch messages).total_threads = messages.length := by
    unfold get_thread_stats
    rw [fold_total_threads]
    rfl
  refine ⟨?_, ?_, h3⟩
  · rw [h1, h2]
    apply List.countP_mono_left
    intro m _ hr
    revert hr
    unfold resolvedB hasReplyB
    cases fetch m.ts with
    | none => simp
    | some replies =>
      cases hpt : pyTail replies with
      | nil => simp [hpt]
      | cons a b => simp [hpt]
  · rw [h2, h3]
    exact List.countP_le_length _

theorem gts_active (uname : String → String) (fetch : Rat → Option (List Reply))
    (messages : List Message) (name : String) :
    (get_thread_stats uname fetch messages).active_responders name
      = totalVisitedCount uname fetch messages name := by
  unfold get_thread_stats
  rw [fold_active]
  simp [initStats]

theorem gts_responders (uname : String → String) (fetch : Rat → Option (List Reply))
    (messages : List Message) (name : String) :
    name ∈ (get_thread_stats uname fetch messages).responders
      ↔ 0 < totalVisitedCount uname fetch messages name := by
  unfold get_thread_stats
  rw [fold_responders]
  simp [initStats]

/-- C1, amended: the responder set and the per-author reply counts cover
only the replies the tally loop visits — everything up to and including
the first marker-bearing reply of each thread.  An author's count is the
number of their replies among those visited, and a name is a responder
iff that count is positive; replies occurring after a thread's first
resolution marker are skipped (the `break` exits the whole reply loop). -/
theorem responder_tally_claim (uname : String → String) (fetch : Rat → Option (List Reply))
    (messages : List Message) (name : String) :
    (get_thread_stats uname fetch messages).active_responders name
      = totalVisitedCount uname fetch messages name
  ∧ (name ∈ (get_thread_stats uname fetch messages).responders
      ↔ 0 < totalVisitedCount uname fetch messages name) :=
  ⟨gts_active uname fetch messages name, gts_responders uname fetch messages name⟩

/-- Thread root entry of the C1 counterexample thread. -/
def parentEntry : Reply := { user := some "carol", ts := some 0, reactions := [] }

/-- First reply: by alice, bearing the resolution marker. -/
def aliceReply : Reply := { user := some "alice", ts := some 60, reactions := [marker] }

/-- Second reply: by bob, after the marked reply. -/
def bobReply : Reply := { user := some "bob", ts := some 120, reactions := [] }

/-- Parent message of the C1 counterexample thread. -/
def c1Msg : Message :=
  { timestamp := 0, user_id := "carol", user_name := "carol", message_text := "", ts := 0 }

/-- Reply fetch of the C1 counterexample: one thread, parent plus two
replies. -/
def c1Fetch : Rat → Option (List Reply) := fun _ => some [parentEntry, aliceReply, bobReply]

/-- Counterexample to C1 as stated: bob authored a reply in the
(successfully fetched) thread, yet bob is not in the responder set and has
reply count 0, because the first reply carries the resolution marker and
the loop breaks before reaching bob's reply. -/
theorem responder_tally_cex :
    c1Fetch c1Msg.ts = some [parentEntry, aliceReply, bobReply]
  ∧ bobReply.user = some "bob"
  ∧ (get_thread_stats id c1Fetch [c1Msg]).active_responders "bob" = 0
  ∧ "bob" ∉ (get_thread_stats id c1Fetch [c1Msg]).responders
  ∧ (get_thread_stats id c1Fetch [c1Msg]).active_responders "alice" = 1 := by
  refine ⟨rfl, rfl, ?_, ?_, ?_⟩
  · rw [gts_active]
    decide
  · rw [gts_responders]
    decide
  · rw [gts_active]
    decide

theorem totalVisitedCount_append (uname : String → String)
    (fetch : Rat → Option (List Reply)) (l1 l2 : List Message) (name : String) :
    totalVisitedCount uname fetch (l1 ++ l2) name
      = totalVisitedCount uname fetch l1 name + totalVisitedCount uname fetch l2 name := by
  simp [totalVisitedCount]

/-- C7, amended: a thread whose reply fetch fails contributes nothing to
any statistic except `total_threads` (which counts every input message,
failed fetches included) and nothing to the leaderboard, and processing
continues with the remaining threads. -/
theorem thread_failure_claim (uname : String → String) (fetch : Rat → Option (List Reply))
    (pre post : List Message) (m : Message) (hm : fetch m.ts = none) :
    (get_thread_stats uname fetch (pre ++ m :: post)).threads_with_replies
      = (get_thread_stats uname fetch (pre ++ post)).threads_with_replies
  ∧ (get_thread_stats uname fetch (pre ++ m :: post)).threads_with_resolution
      = (get_thread_stats uname fetch (pre ++ post)).threads_with_resolution
  ∧ (get_thread_stats uname fetch (pre ++ m :: post)).response_times
      = (get_thread_stats uname fetch (pre ++ post)).response_times
  ∧ (get_thread_stats uname fetch (pre ++ m :: post)).responders
      = (get_thread_stats uname fetch (pre ++ post)).responders
  ∧ (get_thread_stats uname fetch (pre ++ m :: post)).active_responders
      = (get_thread_stats uname fetch (pre ++ post)).active_responders
  ∧ (get_thread_stats uname fetch (pre ++ m :: post)).total_threads
      = (get_thread_stats uname fetch (pre ++ post)).total_threads + 1
  ∧ get_top_performers uname fetch (pre ++ m :: post)
      = get_top_performers uname fetch (pre ++ post) := by
  have hrep : hasReplyB fetch m = false := by simp [hasReplyB, hm]
  have hres : resolvedB fetch m = false := by simp [resolvedB, hm]
  have hsrt : specRT fetch m = none := by simp [specRT, hm]
  have hvc : ∀ nm, visitedCount uname fetch nm m = 0 := fun nm => by simp [visitedCount, hm]
  have h2 : ∀ msgs, (get_thread_stats uname fetch msgs).threads_with_replies
      = msgs.countP (hasReplyB fetch) := by
    intro msgs
    unfold get_thread_stats
    rw [fold_with_replies]
    simp [initStats]
  have h1 : ∀ msgs, (get_thread_stats uname fetch msgs).threads_with_resolution
      = msgs.countP (resolvedB fetch) := by
    intro msgs
    unfold get_thread_stats
    rw [fold_resolution]
    simp [initStats]
  have h3 : ∀ msgs, (get_thread_stats uname fetch msgs).response_times
      = msgs.filterMap (specRT fetch) := by
    intro msgs
    unfold get_thread_stats
    rw [fold_response_times]
    simp [initStats]
  have h4 : ∀ msgs, (get_thread_stats uname fetch msgs).total_threads = msgs.length := by
    intro msgs
    unfold get_thread_stats
    rw [fold_total_threads]
    rfl
  refine ⟨?_, ?_, ?_, ?_, ?_, ?_, ?_⟩
  · rw [h2, h2, List.countP_append, List.countP_append, List.countP_cons, hrep]
    simp
  · rw [h1, h1, List.countP_append, List.countP_append, List.countP_cons, hres]
    simp
  · rw [h3, h3, List.filterMap_append, List.filterMap_append, List.filterMap_cons, hsrt]
  · apply Finset.ext
    intro nm
    rw [gts_responders, gts_responders, totalVisitedCount_append, totalVisitedCount_append,
      totalVisitedCount_cons, hvc]
    omega
  · funext nm
    rw [gts_active, gts_active, totalVisitedCount_append, totalVisitedCount_append,
      totalVisitedCount_cons, hvc]
    omega
  · rw [h4, h4]
    simp only [List.length_append, List.length_cons]
    omega
  · unfold get_top_performers
    rw [List.foldl_append, List.foldl_append, List.foldl_cons]
    have : perfStep uname fetch (pre.foldl (perfStep uname fetch) []) m
        = pre.foldl (perfStep uname fetch) [] := by
      simp [perfStep, hm]
    rw [this]

/-- Message whose thread fetch fails, for the C7 counterexample. -/
def c7Msg : Message :=
  { timestamp := 3, user_id := "dan", user_name := "dan", message_text := "", ts := 3 }

/-- Reply fetch that always fails. -/
def c7Fetch : Rat → Option (List Reply) := fun _ => none

/-- Counterexample to C7 as stated: with a single message whose reply
fetch fails, `total_threads` is 1, not 0 — the failed thread does show up
in a field of the resulting stats (the claim asserts no field reflects
it). -/
theorem thread_failure_cex :
    c7Fetch c7Msg.ts = none
  ∧ (get_thread_stats id c7Fetch [c7Msg]).total_threads = 1
  ∧ (get_thread_stats id c7Fetch []).total_threads = 0 := by
  exact ⟨rfl, rfl, rfl⟩

/-- Witness for the amended C7: a singleton input whose only thread fetch
fails. -/
theorem thread_failure_claim_witness :
    (get_thread_stats id c7Fetch [c7Msg]).threads_with_replies
      = (get_thread_stats id c7Fetch []).threads_with_replies
  ∧ (get_thread_stats id c7Fetch [c7Msg]).threads_with_resolution
      = (get_thread_stats id c7Fetch []).threads_with_resolution
  ∧ (get_thread_stats id c7Fetch [c7Msg]).response_times
      = (get_thread_stats id c7Fetch []).response_times
  ∧ (get_thread_stats id c7Fetch [c7Msg]).responders
      = (get_thread_stats id c7Fetch []).responders
  ∧ (get_thread_stats id c7Fetch [c7Msg]).active_responders
      = (get_thread_stats id c7Fetch []).active_responders
  ∧ (get_thread_stats id c7Fetch [c7Msg]).total_threads
      = (get_thread_stats id c7Fetch []).total_threads + 1
  ∧ get_top_performers id c7Fetch [c7Msg] = get_top_performers id c7Fetch [] :=
  thread_failure_claim id c7Fetch [] [] c7Msg rfl

/-! ### Leaderboard lemmas -/

theorem lookup0_cons (a : String × Nat) (s : List (String × Nat)) (m : String) :
    lookup0 (a :: s) m = if a.1 = m then a.2 else lookup0 s m := by
  unfold lookup0
  by_cases h : a.1 = m <;> simp [List.find?_cons, h]

theorem lookup0_append (s t : List (String × Nat)) (m : String) :
    lookup0 (s ++ t) m = if (s.find? (fun p => decide (p.1 = m))).isSome
      then lookup0 s m else lookup0 t m := by
  induction s with
  | nil => simp [lookup0]
  | cons a rest ih =>
    by_cases h : a.1 = m
    · simp [lookup0_cons, h, List.find?_cons]
    · simp only [List.cons_append, lookup0_cons, h, if_false, ih, List.find?_cons]
      simp [h]

theorem lookup0_not_found (s : List (String × Nat)) (m : String)
    (h : s.any (fun p => decide (p.1 = m)) = false) :
    lookup0 s m = 0 ∧ s.find? (fun p => decide (p.1 = m)) = none := by
  induction s with
  | nil => exact ⟨rfl, rfl⟩
  | cons a rest ih =>
    simp only [List.any_cons, Bool.or_eq_false_iff] at h
    obtain ⟨h1, h2⟩ := h
    have ha : ¬a.1 = m := by simpa using h1
    obtain ⟨ihl, ihf⟩ := ih h2
    refine ⟨?_, ?_⟩
    · rw [lookup0_cons, if_neg ha, ihl]
    · simp [List.find?_cons, ha, ihf]

theorem lookup0_map_bump (n m : String) :
    ∀ s : List (String × Nat),
      lookup0 (s.map (fun p => if p.1 = n then (p.1, p.2 + 1) else p)) m
        = lookup0 s m
          + (if m = n ∧ s.any (fun p => decide (p.1 = m)) = true then 1 else 0)
  | [] => by simp [lookup0]
  | a :: rest => by
    have ih := lookup0_map_bump n m rest
    by_cases han : a.1 = n
    · by_cases ham : a.1 = m
      · have hmn : m = n := by rw [← ham, han]
        simp only [List.map_cons, if_pos han, lookup0_cons, List.any_cons]
        simp [hmn, ham]
      · have hmn : ¬m = n := fun hc => ham (by rw [han, ← hc])
        simp only [List.map_cons, if_pos han, lookup0_cons]
        have hb : ¬((a.1, a.2 + 1) : String × Nat).1 = m := ham
        rw [if_neg hb, if_neg ham, ih]
        simp [hmn]
    · by_cases ham : a.1 = m
      · have hmn : ¬m = n := fun hc => han (by rw [ham, hc])
        simp only [List.map_cons, if_neg han, lookup0_cons, if_pos ham]
        simp [hmn]
      · simp only [List.map_cons, if_neg han, lookup0_cons, if_neg ham, ih, List.any_cons]
        have hd : decide (a.1 = m) = false := by simp [ham]
        simp only [hd, Bool.false_or]

theorem lookup0_bumpScore (s : List (String × Nat)) (n m : String) :
    lookup0 (bumpScore s n) m = lookup0 s m + (if m = n then 1 else 0) := by
  unfold bumpScore
  by_cases hany : s.any (fun p => decide (p.1 = n)) = true
  · rw [if_pos hany, lookup0_map_bump]
    by_cases hm : m = n
    · subst hm
      simp [hany]
    · simp [hm]
  · rw [if_neg hany]
    have hb : s.any (fun p => decide (p.1 = n)) = false := by
      cases hx : s.any (fun p => decide (p.1 = n))
      · rfl
      · exact absurd hx hany
    obtain ⟨hl, hf⟩ := lookup0_not_found s n hb
    rw [lookup0_append]
    by_cases hm : m = n
    · subst hm
      rw [hf, hl]
      simp [lookup0_cons]
    · rw [if_neg hm, Nat.add_zero]
      cases hfm : s.find? (fun p => decide (p.1 = m)) with
      | some v => simp
      | none =>
        have hs0 : lookup0 s m = 0 := by
          unfold lookup0
          rw [hfm]
          rfl
        rw [hs0]
        simp only [Option.isSome_none, Bool.false_eq_true, if_false]
        rw [lookup0_cons, if_neg (fun hc => hm hc.symm)]
        rfl

theorem lookup0_tallyMarked (uname : String → String) :
    ∀ (rs : List Reply) (scores : List (String × Nat)) (m : String),
      lookup0 (tallyMarked uname rs scores) m
        = lookup0 scores m + (rs.filter (markedBy uname m)).length := by
  intro rs
  induction rs with
  | nil => intro scores m; simp [tallyMarked]
  | cons r rest ih =>
    intro scores m
    unfold tallyMarked
    cases hu : r.user with
    | none =>
      have hmb : markedBy uname m r = false := by simp [markedBy, authoredBy, hu]
      simp only [hu, ih, List.filter_cons, hmb, Bool.false_eq_true, if_false]
    | some u =>
      by_cases hmk : hasMarker r
      · simp only [hu, hmk, if_true, ih, lookup0_bumpScore, List.filter_cons]
        by_cases heq : uname u = m
        · have hmb : markedBy uname m r = true := by
            simp [markedBy, authoredBy, hu, heq, hmk]
          rw [hmb]
          simp only [if_true, List.length_cons]
          have hsy : m = uname u := heq.symm
          simp [hsy]
          omega
        · have hmb : markedBy uname m r = false := by
            simp [markedBy, authoredBy, hu, heq]
          rw [hmb]
          have hsy : ¬m = uname u := fun hc => heq hc.symm
          simp [hsy]
      · have hmb : markedBy uname m r = false := by
          simp [markedBy, hmk]
        simp only [hu, hmk, if_false, ih, List.filter_cons, hmb, Bool.false_eq_true]

theorem markedCount_cons (uname : String → String) (fetch : Rat → Option (List Reply))
    (m : String) (msg : Message) (t : List Message) :
    totalMarkedCount uname fetch (msg :: t) m
      = markedCount uname fetch m msg + totalMarkedCount uname fetch t m := by
  simp [totalMarkedCount]

theorem lookup0_perfStep (uname : String → String) (fetch : Rat → Option (List Reply))
    (scores : List (String × Nat)) (msg : Message) (m : String) :
    lookup0 (perfStep uname fetch scores msg) m
      = lookup0 scores m + markedCount uname fetch m msg := by
  unfold perfStep markedCount
  cases hf : fetch msg.ts with
  | none => simp
  | some replies =>
    simp only []
    exact lookup0_tallyMarked uname (replies.drop 1) scores m

theorem lookup0_perf_fold (uname : String → String) (fetch : Rat → Option (List Reply)) :
    ∀ (msgs : List Message) (scores : List (String × Nat)) (m : String),
      lookup0 (msgs.foldl (perfStep uname fetch) scores) m
        = lookup0 scores m + totalMarkedCount uname fetch msgs m := by
  intro msgs
  induction msgs with
  | nil => intro scores m; simp [totalMarkedCount]
  | cons msg t ih =>
    intro scores m
    rw [List.foldl_cons, ih, lookup0_perfStep, markedCount_cons]
    omega

theorem map_fst_bumpScore (s : List (String × Nat)) (n : String) :
    (bumpScore s n).map Prod.fst = insertNew (s.map Prod.fst) n := by
  unfold bumpScore insertNew
  by_cases hany : s.any (fun p => decide (p.1 = n)) = true
  · rw [if_pos hany]
    have hmem : n ∈ s.map Prod.fst := by
      obtain ⟨p, hp, hpn⟩ := List.any_eq_true.mp hany
      exact List.mem_map.mpr ⟨p, hp, by simpa using hpn⟩
    rw [if_pos hmem, List.map_map]
    apply List.map_congr_left
    intro p _
    by_cases hpn : p.1 = n <;> simp [hpn]
  · rw [if_neg hany]
    have hnm : ¬n ∈ s.map Prod.fst := by
      intro hc
      obtain ⟨p, hp, hpn⟩ := List.mem_map.mp hc
      exact hany (List.any_eq_true.mpr ⟨p, hp, by simpa using hpn⟩)
    rw [if_neg hnm]
    simp

theorem nodup_keys_bumpScore (s : List (String × Nat)) (n : String)
    (h : (s.map Prod.fst).Nodup) : ((bumpScore s n).map Prod.fst).Nodup := by
  rw [map_fst_bumpScore]
  unfold insertNew
  split
  · exact h
  · rename_i hnm
    refine h.append (List.nodup_singleton n) ?_
    intro a ha hb
    rw [List.mem_singleton] at hb
    subst hb
    exact hnm ha

theorem nodup_keys_tallyMarked (uname : String → String) :
    ∀ (rs : List Reply) (scores : List (String × Nat)),
      (scores.map Prod.fst).Nodup → ((tallyMarked uname rs scores).map Prod.fst).Nodup := by
  intro rs
  induction rs with
  | nil => intro scores h; exact h
  | cons r rest ih =>
    intro scores h
    unfold tallyMarked
    cases hu : r.user with
    | none => exact ih scores h
    | some u =>
      by_cases hmk : hasMarker r
      · simp only [hmk, if_true]
        exact ih _ (nodup_keys_bumpScore scores (uname u) h)
      · simp only [hmk, if_false]
        exact ih scores h

theorem nodup_keys_perf_fold (uname : String → String) (fetch : Rat → Option (List Reply)) :
    ∀ (msgs : List Message) (scores : List (String × Nat)),
      (scores.map Prod.fst).Nodup
        → ((msgs.foldl (perfStep uname fetch) scores).map Prod.fst).Nodup := by
  intro msgs
  induction msgs with
  | nil => intro scores h; exact h
  | cons msg t ih =>
    intro scores h
    rw [List.foldl_cons]
    apply ih
    unfold perfStep
    cases hf : fetch msg.ts with
    | none => exact h
    | some replies => exact nodup_keys_tallyMarked uname (replies.drop 1) scores h

theorem map_fst_tallyMarked (uname : String → String) :
    ∀ (rs : List Reply) (scores : List (String × Nat)),
      (tallyMarked uname rs scores).map Prod.fst
        = (rs.filterMap (fun r =>
            match r.user with
            | some u => if hasMarker r then some (uname u) else none
            | none => none)).foldl insertNew (scores.map Prod.fst) := by
  intro rs
  induction rs with
  | nil => intro scores; rfl
  | cons r rest ih =>
    intro scores
    unfold tallyMarked
    rw [List.filterMap_cons]
    cases hu : r.user with
    | none => simp only [hu]; exact ih scores
    | some u =>
      by_cases hmk : hasMarker r
      · simp only [hu, hmk, if_true, List.foldl_cons]
        rw [ih, map_fst_bumpScore]
      · simp only [hu, hmk, if_false]
        exact ih scores

theorem map_fst_perf_fold (uname : String → String) (fetch : Rat → Option (List Reply)) :
    ∀ (msgs : List Message) (scores : List (String × Nat)),
      (msgs.foldl (perfStep uname fetch) scores).map Prod.fst
        = msgs.foldl (fun acc msg =>
            match fetch msg.ts with
            | none => acc
            | some replies => (markedNames uname replies).foldl insertNew acc)
            (scores.map Prod.fst) := by
  intro msgs
  induction msgs with
  | nil => intro scores; rfl
  | cons msg t ih =>
    intro scores
    rw [List.foldl_cons, List.foldl_cons, ih]
    congr 1
    unfold perfStep markedNames
    cases hf : fetch msg.ts with
    | none => rfl
    | some replies =>
      simp only []
      exact map_fst_tallyMarked uname (replies.drop 1) scores

theorem find?_eq_head?_filter (p : α → Bool) : ∀ l : List α, l.find? p = (l.filter p).head?
  | [] => rfl
  | a :: rest => by
    rw [List.find?_cons, List.filter_cons]
    cases hp : p a
    · exact find?_eq_head?_filter p rest
    · rfl

theorem filter_key_length_le (m : String) :
    ∀ l : List (String × Nat), (l.map Prod.fst).Nodup →
      (l.filter (fun p => decide (p.1 = m))).length ≤ 1 := by
  intro l
  induction l with
  | nil => intro _; simp
  | cons a rest ih =>
    intro h
    rw [List.map_cons, List.nodup_cons] at h
    obtain ⟨hna, hnd⟩ := h
    rw [List.filter_cons]
    by_cases ham : a.1 = m
    · have hd : decide (a.1 = m) = true := by simpa using ham
      have hempty : rest.filter (fun p => decide (p.1 = m)) = [] := by
        rw [List.filter_eq_nil_iff]
        intro p hp
        simp only [decide_eq_true_eq]
        intro hpm
        exact hna (List.mem_map.mpr ⟨p, hp, by rw [hpm, ← ham]⟩)
      simp [hd, hempty]
    · have hd : decide (a.1 = m) = false := by simpa using ham
      simp only [hd, Bool.false_eq_true, if_false]
      exact ih hnd

theorem lookup0_eq_of_perm (l l2 : List (String × Nat)) (hp : l.Perm l2)
    (hnd : (l2.map Prod.fst).Nodup) (m : String) : lookup0 l m = lookup0 l2 m := by
  unfold lookup0
  rw [find?_eq_head?_filter, find?_eq_head?_filter]
  have hpf := hp.filter (fun p => decide (p.1 = m))
  have hlen2 := filter_key_length_le m l2 hnd
  have heq : l.filter (fun p => decide (p.1 = m)) = l2.filter (fun p => decide (p.1 = m)) := by
    cases hfl : l2.filter (fun p => decide (p.1 = m)) with
    | nil =>
      rw [hfl] at hpf
      exact List.perm_nil.mp hpf
    | cons a t =>
      rw [hfl] at hpf hlen2
      have ht : t = [] := by
        cases t with
        | nil => rfl
        | cons b u => simp at hlen2
      subst ht
      exact List.perm_singleton.mp hpf
  rw [heq]

theorem scoreLe_trans : ∀ (a b c : String × Nat),
    (fun a b : String × Nat => decide (b.2 ≤ a.2)) a b = true
      → (fun a b : String × Nat => decide (b.2 ≤ a.2)) b c = true
      → (fun a b : String × Nat => decide (b.2 ≤ a.2)) a c = true := by
  intro a b c h1 h2
  simp only [decide_eq_true_eq] at h1 h2 ⊢
  omega

theorem scoreLe_total : ∀ (a b : String × Nat),
    ((fun a b : String × Nat => decide (b.2 ≤ a.2)) a b
      || (fun a b : String × Nat => decide (b.2 ≤ a.2)) b a) = true := by
  intro a b
  rcases Nat.le_total a.2 b.2 with h | h <;> simp [h]

theorem mergeSort_filter_score (raw : List (String × Nat)) (k : Nat) :
    (raw.mergeSort (fun a b => decide (b.2 ≤ a.2))).filter (fun p => decide (p.2 = k))
      = raw.filter (fun p => decide (p.2 = k)) := by
  have hpw : (raw.filter (fun p => decide (p.2 = k))).Pairwise
      (fun a b => (fun a b : String × Nat => decide (b.2 ≤ a.2)) a b = true) := by
    apply List.pairwise_of_forall_mem_list
    intro a ha b hb
    have ha2 : a.2 = k := by simpa using (List.mem_filter.mp ha).2
    have hb2 : b.2 = k := by simpa using (List.mem_filter.mp hb).2
    simp [ha2, hb2]
  have hsub : List.Sublist (raw.filter (fun p => decide (p.2 = k)))
      (raw.mergeSort (fun a b => decide (b.2 ≤ a.2))) :=
    List.sublist_mergeSort scoreLe_trans scoreLe_total hpw (List.filter_sublist raw)
  have hself : (raw.filter (fun p => decide (p.2 = k))).filter (fun p => decide (p.2 = k))
      = raw.filter (fun p => decide (p.2 = k)) :=
    List.filter_eq_self.mpr (fun a ha => (List.mem_filter.mp ha).2)
  have hsub2 := hsub.filter (fun p => decide (p.2 = k))
  rw [hself] at hsub2
  have hperm : ((raw.mergeSort (fun a b => decide (b.2 ≤ a.2))).filter
      (fun p => decide (p.2 = k))).Perm (raw.filter (fun p => decide (p.2 = k))) :=
    (List.mergeSort_perm raw (fun a b => decide (b.2 ≤ a.2))).filter (fun p => decide (p.2 = k))
  exact (hsub2.eq_of_length hperm.length_eq.symm).symm

/-- C4: every author's leaderboard score equals the exact number of their
marker-bearing replies across successfully fetched threads (parent
excluded; every marked reply counts, multiple marked replies in the same
thread included); the output is ordered by score descending; entries of
equal score keep exactly the pre-sort dict order (sort stability); and the
pre-sort dict lists authors in first-encountered order. -/
theorem top_performers_claim (uname : String → String) (fetch : Rat → Option (List Reply))
    (messages : List Message) :
    (∀ name, lookup0 (get_top_performers uname fetch messages) name
        = totalMarkedCount uname fetch messages name)
  ∧ List.Pairwise (fun a b => b.2 ≤ a.2) (get_top_performers uname fetch messages)
  ∧ (∀ k : Nat, (get_top_performers uname fetch messages).filter (fun p => decide (p.2 = k))
        = (messages.foldl (perfStep uname fetch) []).filter (fun p => decide (p.2 = k)))
  ∧ (messages.foldl (perfStep uname fetch) []).map Prod.fst
      = encounterOrder uname fetch messages := by
  refine ⟨?_, ?_, ?_, ?_⟩
  · intro name
    have hperm : (get_top_performers uname fetch messages).Perm
        (messages.foldl (perfStep uname fetch) []) := List.mergeSort_perm _ _
    have hnd : ((messages.foldl (perfStep uname fetch) []).map Prod.fst).Nodup :=
      nodup_keys_perf_fold uname fetch messages [] (by simp)
    rw [lookup0_eq_of_perm _ _ hperm hnd name, lookup0_perf_fold]
    simp [lookup0]
  · have hs := List.sorted_mergeSort scoreLe_trans scoreLe_total
      (messages.foldl (perfStep uname fetch) [])
    exact hs.imp (fun h => by simpa using h)
  · intro k
    exact mergeSort_filter_score (messages.foldl (perfStep uname fetch) []) k
  · have h := map_fst_perf_fold uname fetch messages []
    simpa [encounterOrder] using h

end AcqDash
